import Mathlib

/-!
Verification of the BattleDroid negotiation agent
(src/agents/battle_droid/battle_droid.py).

The agent's core is embedded shallowly: Python numbers (float and Decimal)
become exact rationals, a Python dict becomes an association list, and a
Python statement that can raise (IndexError, KeyError, ZeroDivisionError)
is modelled with Option, none standing for the raised exception.  The
agent's own utility profile and the bid sampler are external capabilities
and enter as function parameters.
-/

set_option maxHeartbeats 1000000
set_option maxRecDepth 16000

namespace BattleDroid

/-- A bid assigns one value to every issue, listed in the domain's fixed
issue-enumeration order; values are opaque and coded as naturals.  This is
the list produced by the source's list(bid.getIssueValues().values()). -/
abbrev BidT : Type := List ℕ

/-- A per-issue value-frequency table (a Python dict from value to count),
modelled as an association list. -/
abbrev FreqTable : Type := List (ℕ × ℚ)

/-- Assignment to one key of a dict: replace the entry when the key is
present, append the pair otherwise. -/
def setAssoc (l : FreqTable) (k : ℕ) (v : ℚ) : FreqTable :=
  if l.any (fun p => p.1 == k) then
    l.map (fun p => if p.1 == k then (k, v) else p)
  else
    l ++ [(k, v)]

/-- Sum of the stored counts of a frequency table, the source's
sum(self.value_frequencies[i].values()). -/
def sumValues (l : FreqTable) : ℚ :=
  (l.map Prod.snd).sum

/-- The mutable fields of the agent that the opponent model and the turn
logic read and write (set up in BattleDroid.__init__). -/
structure State where
  bid_history : List BidT
  value_frequencies : List FreqTable
  issue_weights : List ℚ
  issue_change_counter : List ℚ
  last_received_bid : Option BidT
  utility_last_received_bid : ℚ
  utility_last_sent_bid : ℚ
deriving DecidableEq

/-- The field values set in the constructor. -/
def initState : State :=
  { bid_history := []
    value_frequencies := []
    issue_weights := []
    issue_change_counter := []
    last_received_bid := none
    utility_last_received_bid := 1
    utility_last_sent_bid := 1 }

/-- The three per-issue lists mutated by the update loop in the else branch
of opponent_action. -/
structure ObsState where
  counters : List ℚ
  weights : List ℚ
  freqs : List FreqTable
deriving DecidableEq

/-- One iteration (index i) of the update loop of opponent_action.
histLast is self.bid_history[-1] read after the current bid was appended,
n is len(self.last_received_bid.getIssueValues()).  none models a raised
IndexError or ZeroDivisionError. -/
def observeStep (histLast : BidT) (n : ℕ) (bid : BidT) (s : ObsState) (i : ℕ) :
    Option ObsState := do
  let v ← bid.get? i
  let hv ← histLast.get? i
  let c0 ← s.counters.get? i
  let counters := if hv ≠ v then s.counters.set i (c0 * 2) else s.counters
  let ci ← counters.get? i
  let changeTotal := counters.sum
  let num := changeTotal - ci
  let denom := changeTotal * ((n : ℚ) - 1)
  if denom = 0 then
    none
  else if i < s.weights.length then
    let fi ← s.freqs.get? i
    some ⟨counters, s.weights.set i (num / denom),
      s.freqs.set i (setAssoc fi v ((List.lookup v fi).getD 0 + 1))⟩
  else
    none

/-- Processing of one opponent Offer carrying bid (the Offer branch of
opponent_action): record the bid, append its values to the history, then
either initialise the model (first offer) or run the update loop. -/
def opponent_action (st : State) (bid : BidT) : Option State :=
  let hist := st.bid_history ++ [bid]
  let n := bid.length
  if st.issue_weights.isEmpty then
    some { st with
      last_received_bid := some bid
      bid_history := hist
      issue_weights := List.replicate n (1 / (n : ℚ))
      issue_change_counter := List.replicate n 1
      value_frequencies := bid.map (fun v => [(v, 1)]) }
  else do
    let histLast ← hist.getLast?
    let s ← (List.range n).foldlM (observeStep histLast n bid)
      ⟨st.issue_change_counter, st.issue_weights, st.value_frequencies⟩
    some { st with
      last_received_bid := some bid
      bid_history := hist
      issue_change_counter := s.counters
      issue_weights := s.weights
      value_frequencies := s.freqs }

/-- Folds opponent_action over a list of received offers starting from the
freshly initialised agent. -/
def observeAll (bids : List BidT) : Option State :=
  bids.foldlM opponent_action initState

/-- The frequency-based utility estimate computed at the top of my_turn:
the weighted sum of relative value frequencies.  The dict access
self.value_frequencies[i][value] is a plain subscript, so none models a
KeyError for a value never recorded for that issue (and IndexError or
ZeroDivisionError for the other partial operations). -/
def estimateUtility (weights : List ℚ) (freqs : List FreqTable) (bid : BidT) :
    Option ℚ :=
  (List.range bid.length).foldlM
    (fun acc i => do
      let w ← weights.get? i
      let fi ← freqs.get? i
      let v ← bid.get? i
      let fv ← List.lookup v fi
      let s := sumValues fi
      if s = 0 then none else some (acc + w * (fv / s)))
    0

/-- The utility value computed at the top of my_turn: the constant 0.95
when no bid has been received, otherwise the frequency-based estimate of
the last received bid. -/
def myTurnUtility (st : State) : Option ℚ :=
  match st.last_received_bid with
  | none => some 0.95
  | some bid => estimateUtility st.issue_weights st.value_frequencies bid

/-- The reservation utility used by accept_condition: the profile utility
of the configured reservation bid, or the constant 0.7 when
getReservationBid() is None.  The profile utility function u is the
agent's fixed externally supplied valuation. -/
def reservationUtility (u : BidT → ℚ) (reservationBid : Option BidT) : ℚ :=
  match reservationBid with
  | none => 0.7
  | some rb => u rb

/-- The time-dependent concession curve of accept_condition,
k + (1 - k) * progress ** (1 / beta) with k = 0.18 and beta = 0.005, so
the exponent 1 / beta is exactly 200. -/
def boulware (progress : ℚ) : ℚ :=
  0.18 + (1 - 0.18) * progress ^ (200 : ℕ)

/-- The body of accept_condition given the progress value the source reads
at entry: false for a missing bid; true when the own utility reaches 0.99;
true when it reaches the threshold 1 - boulware progress; otherwise the
conjunction of being above the reservation utility and progress at least
0.99. -/
def accept_condition (u : BidT → ℚ) (reservationBid : Option BidT)
    (progress : ℚ) (bid : Option BidT) : Bool :=
  match bid with
  | none => false
  | some b =>
    let reservation := reservationUtility u reservationBid
    if u b ≥ 0.99 then true
    else if u b ≥ 1 - boulware progress then true
    else decide (u b > reservation) && decide (progress ≥ 0.99)

/-- accept_condition as the source runs it: the progress scalar is
obtained by applying the session's progress accessor pget (the injected
ProgressTime object, external to this repository) to the instant nowMs
read from the clock, mirroring self.progress.get(time() * 1000). -/
def accept_condition_at (u : BidT → ℚ) (reservationBid : Option BidT)
    (pget : ℚ → ℚ) (nowMs : ℚ) (bid : Option BidT) : Bool :=
  accept_condition u reservationBid (pget nowMs) bid

/-- A number as Python holds it in find_bid: an exact value tagged with
its runtime type, float or Decimal.  The utility_last_sent_bid field is
initialised to the float 1.0 and only later overwritten with the Decimal
returned by profile.getUtility; mixed float/Decimal arithmetic raises
TypeError in Python while comparisons are permitted across the two
types.  Literal float values are idealised to the exact rationals they
denote. -/
inductive PyNum where
  | float (val : ℚ)
  | dec (val : ℚ)
deriving DecidableEq

/-- The exact value a number carries, used for the comparisons (which
Python permits between float and Decimal). -/
def PyNum.val : PyNum → ℚ
  | .float q => q
  | .dec q => q

/-- The Decimal(x) constructor applied to a float or a Decimal. -/
def PyNum.toDec : PyNum → PyNum
  | .float q => .dec q
  | .dec q => .dec q

/-- Python subtraction on these numbers: defined within one type, and a
raised TypeError (none) between float and Decimal. -/
def PyNum.sub : PyNum → PyNum → Option PyNum
  | .float a, .float b => some (.float (a - b))
  | .dec a, .dec b => some (.dec (a - b))
  | _, _ => none

/-- First tier test of find_bid on a drawn bid b, with uls the current
utility_last_sent_bid field.  The profile's getUtility returns a Decimal
(which is why the source wraps the other operands in Decimal(...) here):
diff_sent = Decimal(uls) - getUtility(b), then the two conditions
-0.2 < diff_sent - Decimal(diff_received) * Decimal(0.3) < 0.05 and
Decimal(uls) - getUtility(b) < 0.1.  none models a raised TypeError; the
explicit conversions keep every subtraction Decimal-Decimal, so this
tier in fact never raises. -/
def tier1Test (u : BidT → ℚ) (uls : PyNum) (diffReceived : ℚ) (b : BidT) :
    Option Bool := do
  let diffSent ← uls.toDec.sub (PyNum.dec (u b))
  let middle ← diffSent.sub (PyNum.dec (diffReceived * 0.3))
  let diffSent2 ← uls.toDec.sub (PyNum.dec (u b))
  some (decide (-0.2 < middle.val) && decide (middle.val < 0.05) &&
    decide (diffSent2.val < 0.1))

/-- Second tier test of find_bid on a drawn bid b: the raw
utility_last_sent_bid field minus the Decimal getUtility result, compared
with 0.1.  Unlike tier one there is no Decimal(...) conversion, so when
the field still holds its initial float the subtraction raises TypeError
(none). -/
def tier2Test (u : BidT → ℚ) (uls : PyNum) (b : BidT) : Option Bool := do
  let d ← uls.sub (PyNum.dec (u b))
  some (decide (d.val < 0.1))

/-- One sampling loop of find_bid: up to fuel draws from the sampler,
returning the first drawn bid whose test yields true.  sample m is the
bid produced by the m-th call to all_bids.get(randint(0, size - 1));
start numbers the draws across the loops of one find_bid call.  The
outer Option is a raised exception escaping the loop; the inner Option
distinguishes a found bid from an exhausted loop. -/
def sampleSearchE (test : BidT → Option Bool) (sample : ℕ → BidT)
    (start fuel : ℕ) : Option (Option BidT) :=
  match fuel with
  | 0 => some none
  | fuel' + 1 =>
    (test (sample start)).bind fun c =>
      if c then some (some (sample start))
      else sampleSearchE test sample (start + 1) fuel'

/-- find_bid: utility is the frequency-based estimate passed in by
my_turn, utilityLastReceived the utility_last_received_bid field (always
a float, like utility, so their subtraction is exact), and
utilityLastSent the utility_last_sent_bid field with its runtime type.
Returns the chosen bid together with the new (Decimal) value of
utility_last_sent_bid, or none for a raised TypeError.  Tier one draws
up to 5000 samples under tier1Test, tier two up to 5000 more under
tier2Test, and the final fallback returns one more unconditional
draw. -/
def find_bid (u : BidT → ℚ) (sample : ℕ → BidT)
    (utilityLastReceived : ℚ) (utilityLastSent : PyNum) (utility : ℚ) :
    Option (BidT × PyNum) :=
  let diffReceived := utilityLastReceived - utility
  (sampleSearchE (tier1Test u utilityLastSent diffReceived) sample 0 5000).bind
    fun r1 =>
      match r1 with
      | some b => some (b, PyNum.dec (u b))
      | none =>
        (sampleSearchE (tier2Test u utilityLastSent) sample 5000 5000).bind
          fun r2 =>
            match r2 with
            | some b => some (b, PyNum.dec (u b))
            | none => some (sample 10000, PyNum.dec (u (sample 10000)))

/-! Helper lemmas. -/

theorem get?_replicate_eq {α : Type} (a : α) {n i : ℕ} (h : i < n) :
    (List.replicate n a).get? i = some a := by
  rw [List.get?_eq_get (by simpa using h)]
  simp

theorem foldlM_option_none {α β : Type} {f : β → α → Option β} {l : List α}
    {x : α} (hx : x ∈ l) (hf : ∀ acc, f acc x = none) (acc : β) :
    List.foldlM f acc l = none := by
  induction l generalizing acc with
  | nil => cases hx
  | cons y ys ih =>
    rcases List.mem_cons.mp hx with h | h
    · subst h
      simp [List.foldlM_cons, hf acc, Option.bind_eq_bind]
    · cases hfy : f acc y with
      | none => simp [List.foldlM_cons, hfy, Option.bind_eq_bind]
      | some b =>
        simp only [List.foldlM_cons, hfy, Option.bind_eq_bind, Option.some_bind]
        exact ih h b

/-- One loop iteration of the update loop keeps the counters at 1, the
weights at 1/n and the table count, when the compared history entry is the
current bid itself. -/
theorem observeStep_good (bid : BidT) (n : ℕ) (hn : 2 ≤ n)
    (hlen : bid.length = n) (s : ObsState)
    (hc : s.counters = List.replicate n 1)
    (hw : s.weights = List.replicate n ((1 : ℚ) / n))
    (hf : s.freqs.length = n) (i : ℕ) (hi : i < n) :
    ∃ t, observeStep bid n bid s i = some t ∧
      t.counters = List.replicate n 1 ∧
      t.weights = List.replicate n ((1 : ℚ) / n) ∧
      t.freqs.length = n := by
  have hn2 : (2 : ℚ) ≤ (n : ℚ) := by exact_mod_cast hn
  have hnq : ((n : ℚ)) ≠ 0 := by intro h; rw [h] at hn2; linarith
  have hnq1 : ((n : ℚ)) - 1 ≠ 0 := by intro h; nlinarith
  obtain ⟨v, hv⟩ : ∃ v, bid.get? i = some v :=
    ⟨_, List.get?_eq_get (hlen ▸ hi)⟩
  obtain ⟨fi, hfi⟩ : ∃ fi, s.freqs.get? i = some fi :=
    ⟨_, List.get?_eq_get (hf ▸ hi)⟩
  have hcget : s.counters.get? i = some 1 := by
    rw [hc]; exact get?_replicate_eq _ hi
  have hsum : s.counters.sum = (n : ℚ) := by
    rw [hc]; simp [List.sum_replicate]
  have hwlen : i < s.weights.length := by
    rw [hw, List.length_replicate]; exact hi
  have hdenom : ¬ ((n : ℚ) * ((n : ℚ) - 1) = 0) := mul_ne_zero hnq hnq1
  have hweight : ((n : ℚ) - 1) / ((n : ℚ) * ((n : ℚ) - 1)) = 1 / (n : ℚ) := by
    field_simp
    ring
  refine ⟨⟨s.counters, s.weights.set i ((1 : ℚ) / n),
      s.freqs.set i (setAssoc fi v ((List.lookup v fi).getD 0 + 1))⟩, ?_, ?_, ?_, ?_⟩
  · simp only [observeStep, hv, hfi, hcget, Option.bind_eq_bind, Option.some_bind,
      ne_eq, not_true_eq_false, if_false, ite_self]
    simp only [hsum, hdenom, if_false, hwlen, if_true, ite_not]
    simp [hweight]
  · exact hc
  · rw [hw, List.set_replicate_self]
  · rw [List.length_set, hf]

/-- The whole update loop keeps the counters at 1, the weights at 1/n and
the table count. -/
theorem foldlM_observeStep_good (bid : BidT) (n : ℕ) (hn : 2 ≤ n)
    (hlen : bid.length = n) (l : List ℕ) (hl : ∀ i ∈ l, i < n) :
    ∀ s : ObsState, s.counters = List.replicate n 1 →
      s.weights = List.replicate n ((1 : ℚ) / n) → s.freqs.length = n →
      ∃ t, List.foldlM (observeStep bid n bid) s l = some t ∧
        t.counters = List.replicate n 1 ∧
        t.weights = List.replicate n ((1 : ℚ) / n) ∧
        t.freqs.length = n := by
  induction l with
  | nil =>
    intro s hc hw hf
    exact ⟨s, rfl, hc, hw, hf⟩
  | cons i rest ih =>
    intro s hc hw hf
    obtain ⟨t, ht, htc, htw, htf⟩ :=
      observeStep_good bid n hn hlen s hc hw hf i (hl i (List.mem_cons_self i rest))
    obtain ⟨t2, ht2, h2⟩ :=
      ih (fun j hj => hl j (List.mem_cons_of_mem i hj)) t htc htw htf
    refine ⟨t2, ?_, h2⟩
    simp [List.foldlM_cons, ht, Option.bind_eq_bind, Option.some_bind, ht2]

/-- The first processed offer initialises the model: counters 1, weights
1/n, one singleton table per issue. -/
theorem opponent_action_init_good (st : State) (bid : BidT)
    (hw : st.issue_weights = []) :
    ∃ st2, opponent_action st bid = some st2 ∧
      st2.issue_change_counter = List.replicate bid.length 1 ∧
      st2.issue_weights = List.replicate bid.length ((1 : ℚ) / bid.length) ∧
      st2.value_frequencies.length = bid.length := by
  refine ⟨{ st with
      last_received_bid := some bid
      bid_history := st.bid_history ++ [bid]
      issue_weights := List.replicate bid.length (1 / (bid.length : ℚ))
      issue_change_counter := List.replicate bid.length 1
      value_frequencies := bid.map (fun v => [(v, 1)]) }, ?_, ?_, ?_, ?_⟩
  · simp only [opponent_action, hw, List.isEmpty_nil, if_true]
  · simp
  · simp
  · simp

/-- Every later processed offer keeps counters 1 and weights 1/n when the
domain has at least two issues. -/
theorem opponent_action_good (n : ℕ) (hn : 2 ≤ n) (st : State)
    (hc : st.issue_change_counter = List.replicate n 1)
    (hw : st.issue_weights = List.replicate n ((1 : ℚ) / n))
    (hf : st.value_frequencies.length = n)
    (bid : BidT) (hlen : bid.length = n) :
    ∃ st2, opponent_action st bid = some st2 ∧
      st2.issue_change_counter = List.replicate n 1 ∧
      st2.issue_weights = List.replicate n ((1 : ℚ) / n) ∧
      st2.value_frequencies.length = n := by
  have hne : st.issue_weights.isEmpty = false := by
    rw [hw]
    cases n with
    | zero => omega
    | succ m => simp [List.replicate]
  obtain ⟨t, ht, htc, htw, htf⟩ :=
    foldlM_observeStep_good bid n hn hlen (List.range bid.length)
      (fun i hi => by rw [← hlen]; exact List.mem_range.mp hi)
      ⟨st.issue_change_counter, st.issue_weights, st.value_frequencies⟩ hc hw hf
  refine ⟨{ st with
      last_received_bid := some bid
      bid_history := st.bid_history ++ [bid]
      issue_change_counter := t.counters
      issue_weights := t.weights
      value_frequencies := t.freqs }, ?_, htc, htw, htf⟩
  simp only [opponent_action, hne, Bool.false_eq_true, if_false,
    List.getLast?_concat, Option.bind_eq_bind, Option.some_bind]
  rw [hlen] at ht ⊢
  rw [ht, Option.some_bind]

/-- Folding opponent_action over further offers keeps counters 1 and
weights 1/n. -/
theorem foldBids_good (n : ℕ) (hn : 2 ≤ n) (bids : List BidT)
    (hlen : ∀ b ∈ bids, b.length = n) :
    ∀ st : State, st.issue_change_counter = List.replicate n 1 →
      st.issue_weights = List.replicate n ((1 : ℚ) / n) →
      st.value_frequencies.length = n →
      ∃ st2, List.foldlM opponent_action st bids = some st2 ∧
        st2.issue_change_counter = List.replicate n 1 ∧
        st2.issue_weights = List.replicate n ((1 : ℚ) / n) ∧
        st2.value_frequencies.length = n := by
  induction bids with
  | nil =>
    intro st hc hw hf
    exact ⟨st, rfl, hc, hw, hf⟩
  | cons b rest ih =>
    intro st hc hw hf
    obtain ⟨st1, h1, h1c, h1w, h1f⟩ :=
      opponent_action_good n hn st hc hw hf b (hlen b (List.mem_cons_self b rest))
    obtain ⟨st2, h2, h2g⟩ :=
      ih (fun x hx => hlen x (List.mem_cons_of_mem b hx)) st1 h1c h1w h1f
    refine ⟨st2, ?_, h2g⟩
    simp [List.foldlM_cons, h1, Option.bind_eq_bind, Option.some_bind, h2]

/-- Claim C2: over a domain with n greater or equal 2 issues, after every
opponent_action call every issue_change_counter entry is still 1.0 and
every issue_weights entry is still exactly 1/n: the current bid is
appended to bid_history before the per-issue comparison, so each value is
compared with itself and the volatility reweighing never moves a weight
off the uniform 1/n. -/
theorem weights_frozen (n : ℕ) (hn : 2 ≤ n) (bids : List BidT)
    (hlen : ∀ b ∈ bids, b.length = n) (hne : bids ≠ []) :
    ∃ st, observeAll bids = some st ∧
      st.issue_change_counter = List.replicate n 1 ∧
      st.issue_weights = List.replicate n ((1 : ℚ) / n) := by
  match bids, hne with
  | b :: rest, _ =>
    have hb : b.length = n := hlen b (List.mem_cons_self b rest)
    obtain ⟨st1, h1, h1c, h1w, h1f⟩ :=
      opponent_action_init_good initState b (by rfl)
    rw [hb] at h1c h1w h1f
    obtain ⟨st2, h2, h2c, h2w, _⟩ :=
      foldBids_good n hn rest (fun x hx => hlen x (List.mem_cons_of_mem b hx))
        st1 h1c h1w h1f
    refine ⟨st2, ?_, h2c, h2w⟩
    unfold observeAll
    simp [List.foldlM_cons, h1, Option.bind_eq_bind, Option.some_bind, h2]

/-- Witness for weights_frozen: two two-issue offers, the second changing
both values; the counters remain [1, 1] and the weights [1/2, 1/2]. -/
theorem weights_frozen_witness :
    (2 ≤ 2 ∧ [[0, 0], [1, 1]] ≠ ([] : List BidT)) ∧
    ∃ st, observeAll [[0, 0], [1, 1]] = some st ∧
      st.issue_change_counter = List.replicate 2 1 ∧
      st.issue_weights = List.replicate 2 ((1 : ℚ) / 2) :=
  ⟨⟨le_refl 2, by simp⟩,
    weights_frozen 2 (le_refl 2) [[0, 0], [1, 1]]
      (by decide) (by simp)⟩

/-- Claim C1 evaluated at a failing input: the first offer assigns (0, 0),
the second assigns (1, 0), so the value of issue 0 differs from the
immediately prior observed bid; yet the volatility counter of issue 0 is
still 1.0 (not doubled), because the new bid is appended to bid_history
before the comparison and is therefore compared with itself. -/
theorem volatility_not_doubled :
    (observeAll [[0, 0], [1, 0]]).map State.issue_change_counter
      = some [1, 1] := by
  with_unfolding_all rfl

/-- Claim C3 evaluated at a failing input: in a single-issue domain the
second observed offer reaches the weight update with denominator
change_total * (1 - 1) = 0, which raises ZeroDivisionError (none); no
special case sets the weight to 1.0. -/
theorem single_issue_division_crash :
    observeAll [[0], [0]] = none := by
  with_unfolding_all rfl

/-- Counterexample to claim C5: after observing the single offer (5, 5),
the bid (7, 5) carries the value 7 never observed for issue 0; the
estimate does not fall back to a zero contribution but fails (KeyError,
embedded as none). -/
theorem estimate_unseen_cex :
    (observeAll [[5, 5]]).isSome = true ∧
    ((observeAll [[5, 5]]).bind fun st =>
      estimateUtility st.issue_weights st.value_frequencies [7, 5]) = none := by
  constructor
  · with_unfolding_all rfl
  · with_unfolding_all rfl

/-- Claim C5 as amended: a bid carrying, on some issue i, a value absent
from that issue's frequency table makes the estimate fail (none, the
KeyError of the plain dict subscript) instead of contributing 0. -/
theorem estimate_unseen_none (weights : List ℚ) (freqs : List FreqTable)
    (bid : BidT) (i : ℕ) (fi : FreqTable) (v : ℕ)
    (hi : i < bid.length) (hv : bid.get? i = some v)
    (hfq : freqs.get? i = some fi) (hl : List.lookup v fi = none) :
    estimateUtility weights freqs bid = none := by
  unfold estimateUtility
  apply foldlM_option_none (List.mem_range.mpr hi)
  intro acc
  have hfq2 : freqs[i]? = some fi := by
    rw [← List.get?_eq_getElem?]; exact hfq
  have hv2 : bid[i]? = some v := by
    rw [← List.get?_eq_getElem?]; exact hv
  cases hw : weights.get? i with
  | none => simp [hw, Option.bind_eq_bind]
  | some w => simp [hw, hfq2, hv2, hl, Option.bind_eq_bind]

/-- Witness for estimate_unseen_none: one issue with table {5: 1}, a bid
carrying the unseen value 7. -/
theorem estimate_unseen_none_witness :
    ((0 : ℕ) < ([7] : BidT).length ∧ ([7] : BidT).get? 0 = some 7 ∧
      ([[(5, (1 : ℚ))]] : List FreqTable).get? 0 = some [(5, 1)] ∧
      List.lookup 7 [(5, (1 : ℚ))] = none) ∧
    estimateUtility [1] [[(5, 1)]] [7] = none :=
  ⟨⟨by decide, rfl, rfl, rfl⟩,
    estimate_unseen_none [1] [[(5, 1)]] [7] 0 [(5, 1)] 7 (by decide) rfl rfl rfl⟩

/-- Claim C10: when no opponent bid has been received yet, the utility
estimate used by my_turn is exactly the constant 0.95 and the
frequency/weight formula is not invoked (the result does not depend on
the weights or the tables). -/
theorem default_estimate (st : State) (h : st.last_received_bid = none) :
    myTurnUtility st = some 0.95 := by
  unfold myTurnUtility
  rw [h]

/-- Witness for default_estimate: the freshly initialised agent. -/
theorem default_estimate_witness :
    initState.last_received_bid = none ∧ myTurnUtility initState = some 0.95 :=
  ⟨rfl, default_estimate initState rfl⟩

/-- accept_condition on a present bid is the three-way disjunction of its
checks. -/
theorem accept_condition_eq_true_iff (u : BidT → ℚ) (rb : Option BidT)
    (p : ℚ) (b : BidT) :
    accept_condition u rb p (some b) = true ↔
      0.99 ≤ u b ∨ 1 - boulware p ≤ u b ∨
        (reservationUtility u rb < u b ∧ 0.99 ≤ p) := by
  simp only [accept_condition]
  split_ifs with h1 h2
  · simp [h1]
  · simp [h2]
  · simp [h1, h2, Bool.and_eq_true, decide_eq_true_iff]

/-- The concession curve is monotone in progress on the nonnegative
range. -/
theorem boulware_mono {p q : ℚ} (h0 : 0 ≤ p) (hpq : p ≤ q) :
    boulware p ≤ boulware q := by
  unfold boulware
  have hpow : p ^ (200 : ℕ) ≤ q ^ (200 : ℕ) := pow_le_pow_left₀ h0 hpq 200
  have h82 : (0 : ℚ) ≤ 1 - 0.18 := by norm_num
  nlinarith

/-- Claim C7: with the bid held fixed, acceptance is monotone in progress
under the default constants k = 0.18, beta = 0.005 (exponent 200) and
reservation default 0.7: accepted at p implies accepted at every q > p,
for nonnegative p. -/
theorem accept_monotone (u : BidT → ℚ) (rb : Option BidT) (b : BidT)
    (p q : ℚ) (h0 : 0 ≤ p) (hpq : p < q)
    (h : accept_condition u rb p (some b) = true) :
    accept_condition u rb q (some b) = true := by
  rw [accept_condition_eq_true_iff] at h ⊢
  rcases h with h | h | ⟨h1, h2⟩
  · exact Or.inl h
  · refine Or.inr (Or.inl ?_)
    have := boulware_mono h0 hpq.le
    linarith
  · exact Or.inr (Or.inr ⟨h1, le_trans h2 hpq.le⟩)

/-- Witness for accept_monotone: a 3/4-utility bid accepted at progress 1
is still accepted at progress 2. -/
theorem accept_monotone_witness :
    accept_condition (fun _ => (3 : ℚ) / 4) none 1 (some [0]) = true ∧
    accept_condition (fun _ => (3 : ℚ) / 4) none 2 (some [0]) = true :=
  ⟨by with_unfolding_all rfl,
    accept_monotone (fun _ => (3 : ℚ) / 4) none [0] 1 2 (by norm_num)
      (by norm_num) (by with_unfolding_all rfl)⟩

/-- Claim C9: a bid whose own fixed-profile utility reaches 0.99 is
accepted at every progress. -/
theorem accept_high_utility (u : BidT → ℚ) (rb : Option BidT)
    (p : ℚ) (b : BidT) (h : 0.99 ≤ u b) :
    accept_condition u rb p (some b) = true := by
  simp only [accept_condition]
  rw [if_pos h]

/-- Witness for accept_high_utility: a full-utility bid at progress 0. -/
theorem accept_high_utility_witness :
    (0.99 : ℚ) ≤ (fun _ : BidT => (1 : ℚ)) [0] ∧
    accept_condition (fun _ => (1 : ℚ)) none 0 (some [0]) = true :=
  ⟨by norm_num, accept_high_utility (fun _ => 1) none 0 [0] (by norm_num)⟩

/-- Counterexample to claim C4: with no reservation bid configured the
reservation utility is 0.7; the constant-1/2 profile puts the bid [0]
strictly below it, yet at progress 1 accept_condition returns true (the
Boulware threshold has fallen to 0). -/
theorem accept_below_reservation_cex :
    accept_condition (fun _ => (1 : ℚ) / 2) none 1 (some [0]) = true ∧
    (fun _ : BidT => (1 : ℚ) / 2) [0]
      < reservationUtility (fun _ => (1 : ℚ) / 2) none := by
  constructor
  · with_unfolding_all rfl
  · norm_num [reservationUtility]

/-- Claim C4 as amended: a bid strictly below the reservation utility is
never accepted by the deadline fallback (whose conjunct utility above
reservation fails); it is accepted exactly when it passes the 0.99 check
or the time-dependent Boulware threshold. -/
theorem below_reservation_needs_curve (u : BidT → ℚ) (rb : Option BidT)
    (p : ℚ) (b : BidT) (h : u b < reservationUtility u rb) :
    accept_condition u rb p (some b) =
      (decide (0.99 ≤ u b) || decide (1 - boulware p ≤ u b)) := by
  simp only [accept_condition]
  split_ifs with h1 h2
  · simp [h1]
  · simp [h2]
  · simp [h1, h2, lt_asymm h]

/-- Witness for below_reservation_needs_curve: the constant-1/2 profile at
progress 0 is rejected, matching the two-check disjunction. -/
theorem below_reservation_needs_curve_witness :
    ((fun _ : BidT => (1 : ℚ) / 2) [0]
        < reservationUtility (fun _ => (1 : ℚ) / 2) none) ∧
    accept_condition (fun _ => (1 : ℚ) / 2) none 0 (some [0]) =
      (decide ((0.99 : ℚ) ≤ (1 : ℚ) / 2) ||
        decide (1 - boulware 0 ≤ (1 : ℚ) / 2)) :=
  ⟨by norm_num [reservationUtility],
    below_reservation_needs_curve (fun _ => (1 : ℚ) / 2) none 0 [0]
      (by norm_num [reservationUtility])⟩

/-- Claim C6: the acceptance decision is a deterministic function of the
bid, the progress value, the fixed profile and the fixed constants: two
evaluations at instants mapped by the progress accessor to the same
progress value return the same boolean, so the clock instant read inside
accept_condition influences the result only through the injected progress
accessor. -/
theorem accept_deterministic (u : BidT → ℚ) (rb : Option BidT)
    (pget : ℚ → ℚ) (t1 t2 : ℚ) (bid : Option BidT)
    (h : pget t1 = pget t2) :
    accept_condition_at u rb pget t1 bid
      = accept_condition_at u rb pget t2 bid := by
  unfold accept_condition_at
  rw [h]

/-- Witness for accept_deterministic: a constant progress accessor queried
at two different instants. -/
theorem accept_deterministic_witness :
    (fun _ : ℚ => (1 : ℚ) / 2) 0 = (fun _ : ℚ => (1 : ℚ) / 2) 1000 ∧
    accept_condition_at (fun _ => (1 : ℚ)) none (fun _ => (1 : ℚ) / 2) 0
        (some [0])
      = accept_condition_at (fun _ => (1 : ℚ)) none (fun _ => (1 : ℚ) / 2) 1000
        (some [0]) :=
  ⟨rfl, accept_deterministic (fun _ => 1) none (fun _ => (1 : ℚ) / 2) 0 1000
    (some [0]) rfl⟩

/-- A sampling loop whose test yields false on every draw exhausts its
fuel without an exception. -/
theorem sampleSearchE_const_false {test : BidT → Option Bool}
    {sample : ℕ → BidT} (h : ∀ b, test b = some false) :
    ∀ fuel start, sampleSearchE test sample start fuel = some none := by
  intro fuel
  induction fuel with
  | zero => intro start; rfl
  | succ f ih =>
    intro start
    simp only [sampleSearchE, h (sample start), Option.some_bind,
      Bool.false_eq_true, if_false]
    exact ih (start + 1)

/-- Claim C8 evaluated at a failing input: on the agent's first find_bid
call the utility_last_sent_bid field still holds its initial float 1.0.
With a profile giving every bid utility 1/2, every tier-one draw fails
(diff_sent = 1/2 is not below 0.1), so the loop exhausts its 5000
samples; tier two then computes utility_last_sent_bid -
profile.getUtility(bid) with no Decimal(...) conversion, a float minus a
Decimal, which raises TypeError (none) instead of returning a bid. -/
theorem find_bid_type_error :
    find_bid (fun _ => (1 : ℚ) / 2) (fun _ => ([0] : BidT)) 1
      (PyNum.float 1) 1 = none := by
  have h1 : sampleSearchE
      (tier1Test (fun _ => (1 : ℚ) / 2) (PyNum.float 1) (1 - 1))
      (fun _ => ([0] : BidT)) 0 5000 = some none :=
    sampleSearchE_const_false (fun b => by with_unfolding_all rfl) 5000 0
  have h2 : sampleSearchE (tier2Test (fun _ => (1 : ℚ) / 2) (PyNum.float 1))
      (fun _ => ([0] : BidT)) 5000 5000 = none := by
    with_unfolding_all rfl
  simp only [find_bid, h1, h2, Option.some_bind, Option.none_bind]

end BattleDroid
